import Mathlib

/-
Verification of the vendir git fetcher (pkg/vendir/fetch/git/git.go) and of
the locked-sync determinism property of the synchronization engine.

The git fetcher is embedded shallowly: the outside world (secrets resolved by
the RefFetcher, temp-dir creation, file writes, git subprocess runs, the
ambient environment, and net/url parsing) is an oracle record `World`, and the
fetcher functions return the trace of side effects they would perform together
with their result.  Every branch of the Go code is mirrored: validation
checks, the deferred removal of the auth dir, the soft failure of
`git describe --tags`, and the exact argument vectors handed to git.
-/

deriving instance DecidableEq for Except

namespace Vendir

/-- Leading-characters test: charsLead pat s is true when pat is an initial
run of s. -/
def charsLead : List Char → List Char → Bool
  | [], _ => true
  | _ :: _, [] => false
  | c :: cs, d :: ds => c == d && charsLead cs ds

/-- Go's strings.HasPrefix(s, pat): s begins with pat.  Defined structurally
on the character lists so that concrete instances evaluate. -/
def strHasPre (s pat : String) : Bool := charsLead pat.data s.data

/-- Secret material resolved by the RefFetcher; Data mirrors the
Kubernetes-style key/value payload of a secret. -/
structure Secret where
  Data : List (String × String)
deriving Repr

/-- Reference to a named secret, as in DirectoryContentsGit.SecretRef. -/
structure SecretRef where
  Name : String
deriving Repr

/-- Configuration of one git content source (ctlconf.DirectoryContentsGit). -/
structure DirectoryContentsGit where
  URL : String
  Ref : String
  SecretRef : Option SecretRef := none
  LFSSkipSmudge : Bool := false
deriving Repr

/-- Result of running one git subprocess: the error produced by cmd.Run (none
means exit status zero) and the captured stdout and stderr. -/
structure GitCmdResult where
  exitErr : Option String := none
  stdout : String := ""
  stderr : String := ""
deriving Repr

/-- A side effect the fetcher performs against the outside world. -/
inductive Effect where
  | newTempDir (label : String)
  | writeFile (path : String) (contents : String) (mode : Nat)
  | removeAll (path : String)
  | runGit (args : List String) (env : Option (List String)) (dir : String)
deriving Repr, DecidableEq

/-- Oracle for everything outside the fetcher: secret resolution, temp dirs,
file writes (an error message or none), git subprocess outcomes keyed by the
argument vector, the ambient process environment, and the serialization of a
remote URL with user/password embedded (net/url). -/
structure World where
  getSecret : String → Except String Secret
  newTempDir : String → Except String String
  writeFileErr : String → Option String
  gitExec : List String → GitCmdResult
  environ : List String
  credsUrlString : String → String → String → Except String String

/-- Auth material resolved from the secret (gitAuthOpts in git.go). -/
structure gitAuthOpts where
  PrivateKey : Option String := none
  KnownHosts : Option String := none
  Username : Option String := none
  Password : Option String := none
deriving Repr, DecidableEq

/-- gitAuthOpts.IsPresent: any of the four fields is set. -/
def gitAuthOpts.IsPresent (o : gitAuthOpts) : Bool :=
  o.PrivateKey.isSome || o.KnownHosts.isSome || o.Username.isSome || o.Password.isSome

/-- Secret key recognized for an SSH private key
(ctlconf.SecretK8sCoreV1SSHAuthPrivateKey). -/
def secretSSHPrivateKeyField : String := "ssh-privatekey"

/-- Secret key recognized for known hosts (ctlconf.SecretSSHAuthKnownHosts). -/
def secretKnownHostsField : String := "ssh-knownhosts"

/-- Secret key recognized for a basic-auth username
(ctlconf.SecretK8sCorev1BasicAuthUsernameKey). -/
def secretUsernameField : String := "username"

/-- Secret key recognized for a basic-auth password
(ctlconf.SecretK8sCorev1BasicAuthPasswordKey). -/
def secretPasswordField : String := "password"

/-- The loop over secret.Data in Git.getAuthOpts: each recognized key fills
the corresponding field; an unknown key is a fatal error naming the field and
the secret. -/
def getAuthOptsLoop (secretName : String) :
    List (String × String) → gitAuthOpts → Except String gitAuthOpts
  | [], opts => .ok opts
  | (name, val) :: rest, opts =>
    if name = secretSSHPrivateKeyField then
      getAuthOptsLoop secretName rest { opts with PrivateKey := some val }
    else if name = secretKnownHostsField then
      getAuthOptsLoop secretName rest { opts with KnownHosts := some val }
    else if name = secretUsernameField then
      getAuthOptsLoop secretName rest { opts with Username := some val }
    else if name = secretPasswordField then
      getAuthOptsLoop secretName rest { opts with Password := some val }
    else
      .error ("Unknown secret field '" ++ name ++ "' in secret '" ++ secretName ++ "'")

/-- Git.getAuthOpts: no secret ref means empty auth opts; otherwise resolve
the secret through the RefFetcher and fold its data. -/
def Git.getAuthOpts (w : World) (t : DirectoryContentsGit) : Except String gitAuthOpts :=
  match t.SecretRef with
  | none => .ok {}
  | some ref =>
    match w.getSecret ref.Name with
    | .error e => .error e
    | .ok secret => getAuthOptsLoop ref.Name secret.Data {}

/-- Go fmt's rendering of a []string with the %s verb: [a b c]. -/
def goFmtArgs (args : List String) : String :=
  "[" ++ String.intercalate " " args ++ "]"

/-- Git.run: spawn `git args...` in dstPath with the given environment (none
means the inherited one); a non-zero exit becomes an error carrying the
argument vector and the captured stderr. -/
def Git.run (w : World) (args : List String) (env : Option (List String))
    (dstPath : String) : List Effect × Except String (String × String) :=
  ([Effect.runGit args env dstPath],
    match (w.gitExec args).exitErr with
    | some e =>
      .error ("Git " ++ goFmtArgs args ++ ": " ++ e ++
        " (stderr: " ++ (w.gitExec args).stderr ++ ")")
    | none => .ok ((w.gitExec args).stdout, (w.gitExec args).stderr))

/-- The fixed head of the SSH command built in Git.fetch. -/
def sshCmdBase : List String :=
  ["ssh", "-o", "ServerAliveInterval=30", "-o", "ForwardAgent=no", "-F", "/dev/null"]

/-- The SSH command after the private-key step: adds the identity file options
when a private key is present. -/
def sshCmdWithKey (authDir : String) (o : gitAuthOpts) : List String :=
  match o.PrivateKey with
  | some _ => sshCmdBase ++ ["-i", authDir ++ "/private-key", "-o", "IdentitiesOnly=yes"]
  | none => sshCmdBase

/-- The full SSH command built in Git.fetch: strict host key checking is
enabled exactly when known-hosts material was supplied. -/
def sshCmdFor (authDir : String) (o : gitAuthOpts) : List String :=
  match o.KnownHosts with
  | some _ => sshCmdWithKey authDir o ++
      ["-o", "StrictHostKeyChecking=yes", "-o", "UserKnownHostsFile=" ++ (authDir ++ "/known-hosts")]
  | none => sshCmdWithKey authDir o ++ ["-o", "StrictHostKeyChecking=no"]

/-- The private-key write step of Git.fetch: writes authDir/private-key with
mode 0600 when a key is present. -/
def writeKey (w : World) (o : gitAuthOpts) (authDir : String) :
    List Effect × Except String Unit :=
  match o.PrivateKey with
  | none => ([], .ok ())
  | some key =>
    ([Effect.writeFile (authDir ++ "/private-key") key 0o600],
      match w.writeFileErr (authDir ++ "/private-key") with
      | some e => .error ("Writing private key: " ++ e)
      | none => .ok ())

/-- The known-hosts write step of Git.fetch: writes authDir/known-hosts with
mode 0600 when known hosts are present. -/
def writeKnownHosts (w : World) (o : gitAuthOpts) (authDir : String) :
    List Effect × Except String Unit :=
  match o.KnownHosts with
  | none => ([], .ok ())
  | some hosts =>
    ([Effect.writeFile (authDir ++ "/known-hosts") hosts 0o600],
      match w.writeFileErr (authDir ++ "/known-hosts") with
      | some e => .error ("Writing known hosts: " ++ e)
      | none => .ok ())

/-- The auth-material block of Git.fetch: when any auth option is present,
materialize key and known hosts and produce the GIT_SSH_COMMAND environment
entry; otherwise do nothing. -/
def writeAuthMaterial (w : World) (o : gitAuthOpts) (authDir : String) :
    List Effect × Except String (Option String) :=
  if o.IsPresent then
    match writeKey w o authDir with
    | (tr, .error e) => (tr, .error e)
    | (tr, .ok ()) =>
      match writeKnownHosts w o authDir with
      | (tr2, .error e) => (tr ++ tr2, .error e)
      | (tr2, .ok ()) =>
        (tr ++ tr2, .ok (some ("GIT_SSH_COMMAND=" ++ String.intercalate " " (sshCmdFor authDir o))))
  else ([], .ok none)

/-- The basic-auth block of Git.fetch: only when BOTH username and password
are present, require an https remote, serialize the credentials URL and write
the credential-store file with mode 0600. -/
def writeCreds (w : World) (t : DirectoryContentsGit) (o : gitAuthOpts)
    (gitCredsPath : String) : List Effect × Except String Unit :=
  match o.Username, o.Password with
  | some user, some pass =>
    if ¬ (strHasPre t.URL "https://") then
      ([], .error "Username/password authentication is only supported for https remotes")
    else
      match w.credsUrlString t.URL user pass with
      | .error e => ([], .error ("Parsing git remote url: " ++ e))
      | .ok s =>
        ([Effect.writeFile gitCredsPath (s ++ "\n") 0o600],
          match w.writeFileErr gitCredsPath with
          | some e => .error ("Writing " ++ gitCredsPath ++ ": " ++ e)
          | none => .ok ())
  | _, _ => ([], .ok ())

/-- The git command sequence of Git.fetch: init, credential-helper config,
remote add, fetch, and (unless fetching a skeleton) checkout with detached
head advice off followed by recursive submodule update. -/
def gitArgss (gitCredsPath url ref : String) (skeleton : Bool) : List (List String) :=
  [["init"],
   ["config", "credential.helper", "store --file " ++ gitCredsPath],
   ["remote", "add", "origin", url],
   ["fetch", "origin"]] ++
  (if skeleton then []
   else [["-c", "advice.detachedHead=false", "checkout", ref],
         ["submodule", "update", "--init", "--recursive"]])

/-- Run each argument vector in order, stopping at the first failure. -/
def runAll (w : World) (env : List String) (dstPath : String) :
    List (List String) → List Effect × Except String Unit
  | [] => ([], .ok ())
  | args :: rest =>
    match Git.run w args (some env) dstPath with
    | (tr, .error e) => (tr, .error e)
    | (tr, .ok _) =>
      match runAll w env dstPath rest with
      | (tr2, res2) => (tr ++ tr2, res2)

/-- The subprocess environment built in Git.fetch: the ambient entries, then
the GIT_SSH_COMMAND entry when auth material produced one, then the LFS
skip-smudge entry when configured.  Appended entries override earlier
duplicates (Go's os/exec uses the last value for a duplicated key). -/
def fetchEnv (w : World) (t : DirectoryContentsGit) (sshEnvEntry : Option String) :
    List String :=
  w.environ ++
    (match sshEnvEntry with | some s => [s] | none => []) ++
    (if t.LFSSkipSmudge then ["GIT_LFS_SKIP_SMUDGE=1"] else [])

/-- Body of Git.fetch after the auth dir exists: materialize auth, build the
subprocess environment, write basic-auth credentials, then run the git
command sequence. -/
def Git.fetchBody (w : World) (t : DirectoryContentsGit) (dstPath : String)
    (skeleton : Bool) (o : gitAuthOpts) (authDir : String) :
    List Effect × Except String Unit :=
  match writeAuthMaterial w o authDir with
  | (tr, .error e) => (tr, .error e)
  | (tr, .ok sshEnvEntry) =>
    match writeCreds w t o (authDir ++ "/.git-credentials") with
    | (tr2, .error e) => (tr ++ tr2, .error e)
    | (tr2, .ok ()) =>
      match runAll w (fetchEnv w t sshEnvEntry) dstPath
          (gitArgss (authDir ++ "/.git-credentials") t.URL t.Ref skeleton) with
      | (tr3, res) => (tr ++ tr2 ++ tr3, res)

/-- Git.fetch: resolve auth opts, create the git-auth temp dir, run the body,
and (mirroring the deferred os.RemoveAll) remove the auth dir on every path
after its creation, success or error. -/
def Git.fetch (w : World) (t : DirectoryContentsGit) (dstPath : String)
    (skeleton : Bool) : List Effect × Except String Unit :=
  match Git.getAuthOpts w t with
  | .error e => ([], .error e)
  | .ok o =>
    match w.newTempDir "git-auth" with
    | .error e => ([Effect.newTempDir "git-auth"], .error e)
    | .ok authDir =>
      match Git.fetchBody w t dstPath skeleton o authDir with
      | (tr, res) =>
        (Effect.newTempDir "git-auth" :: (tr ++ [Effect.removeAll authDir]), res)

/-- Whitespace as Go's strings.TrimSpace treats it (the ASCII cases). -/
def isSpaceChar (c : Char) : Bool :=
  c == ' ' || c == '\n' || c == '\t' || c == '\r'

/-- Drop leading whitespace characters. -/
def dropLeadingSpace : List Char → List Char
  | [] => []
  | c :: cs => if isSpaceChar c then dropLeadingSpace cs else c :: cs

/-- Go's strings.TrimSpace: remove leading and trailing whitespace.  Defined
structurally so concrete instances evaluate. -/
def goTrimSpace (s : String) : String :=
  ⟨(dropLeadingSpace (dropLeadingSpace s.data.reverse).reverse)⟩

/-- Split a character list at newline characters; the empty list yields one
empty group, as Go's strings.Split does. -/
def splitOnNl : List Char → List (List Char)
  | [] => [[]]
  | c :: cs =>
    if c = '\n' then [] :: splitOnNl cs
    else
      match splitOnNl cs with
      | [] => [[c]]
      | g :: gs => (c :: g) :: gs

/-- Go's strings.Split(s, newline). -/
def goSplitNl (s : String) : List String := (splitOnNl s.data).map String.mk

/-- Lock record returned by Git.Retrieve (GitInfo in git.go). -/
structure GitInfo where
  SHA : String := ""
  Tags : List String := []
  CommitTitle : String := ""
deriving Repr, DecidableEq

/-- Git.Retrieve: validate URL and ref, fetch with checkout, then read the
HEAD SHA, the tags from `describe --tags` (whose failure is swallowed), and
the commit message from `log -n 1 --pretty=%B`. -/
def Git.Retrieve (w : World) (t : DirectoryContentsGit) (dstPath : String) :
    List Effect × Except String GitInfo :=
  if t.URL = "" then ([], .error "Expected non-empty URL")
  else if t.Ref = "" then
    ([], .error "Expected non-empty ref (could be branch, tag, commit)")
  else
    match Git.fetch w t dstPath false with
    | (tr, .error e) => (tr, .error ("Cloning: " ++ e))
    | (tr, .ok ()) =>
      match Git.run w ["rev-parse", "HEAD"] none dstPath with
      | (tr1, .error e) => (tr ++ tr1, .error e)
      | (tr1, .ok (out1, _)) =>
        match Git.run w ["describe", "--tags", goTrimSpace out1] none dstPath with
        | (tr2, r2) =>
          match Git.run w ["log", "-n", "1", "--pretty=%B", goTrimSpace out1] none dstPath with
          | (tr3, .error e) => (tr ++ tr1 ++ tr2 ++ tr3, .error e)
          | (tr3, .ok (out3, _)) =>
            (tr ++ tr1 ++ tr2 ++ tr3,
              .ok { SHA := goTrimSpace out1,
                    Tags := match r2 with
                      | .ok (out2, _) => goSplitNl (goTrimSpace out2)
                      | .error _ => [],
                    CommitTitle := goTrimSpace out3 })

/-- Projection of a trace to the git subprocess invocations: argument vector
and working directory, in order. -/
def gitCmdsOf (tr : List Effect) : List (List String × String) :=
  tr.filterMap (fun e => match e with
    | .runGit args _ dir => some (args, dir)
    | _ => none)

/-- Projection of a trace to the argument vectors of git invocations. -/
def gitArgsOf (tr : List Effect) : List (List String) :=
  tr.filterMap (fun e => match e with
    | .runGit args _ _ => some args
    | _ => none)

/-- Projection of a trace to the environments passed to git invocations. -/
def gitEnvsOf (tr : List Effect) : List (Option (List String)) :=
  tr.filterMap (fun e => match e with
    | .runGit _ env _ => some env
    | _ => none)

/-- A benign world where every external operation succeeds: no secret is
configured, the temp dir is a fixed path, writes succeed, every git command
exits zero with empty output. -/
def baseWorld : World where
  getSecret := fun _ => .error "no secret configured"
  newTempDir := fun _ => .ok "/tmp/vendir/git-auth"
  writeFileErr := fun _ => none
  gitExec := fun _ => {}
  environ := []
  credsUrlString := fun _ user pass => .ok ("https://" ++ user ++ ":" ++ pass ++ "@example.com")

/-- A plain git source with no secret. -/
def plainGitOpts : DirectoryContentsGit where
  URL := "https://example.com/repo.git"
  Ref := "main"

theorem runAll_ok_of_mem (w : World) (env : List String) (dst : String)
    (l : List (List String)) (h : (runAll w env dst l).2 = .ok ()) :
    ∀ a ∈ l, (w.gitExec a).exitErr = none := by
  induction l with
  | nil => simp
  | cons a rest ih =>
    rcases hx : (w.gitExec a).exitErr with _ | e
    · rcases hr : runAll w env dst rest with ⟨tr2, r2⟩
      have h2 : r2 = .ok () := by
        simp only [runAll, Git.run, hx, hr] at h
        simpa using h
      intro b hb
      rcases List.mem_cons.mp hb with hb | hb
      · subst hb; exact hx
      · exact ih (by rw [hr, h2]) b hb
    · exfalso
      simp [runAll, Git.run, hx] at h

theorem runAll_ok_trace (w : World) (env : List String) (dst : String)
    (l : List (List String)) (h : (runAll w env dst l).2 = .ok ()) :
    (runAll w env dst l).1 = l.map (fun a => Effect.runGit a (some env) dst) := by
  induction l with
  | nil => simp [runAll]
  | cons a rest ih =>
    rcases hx : (w.gitExec a).exitErr with _ | e
    · rcases hr : runAll w env dst rest with ⟨tr2, r2⟩
      have h2 : r2 = .ok () := by
        simp only [runAll, Git.run, hx, hr] at h
        simpa using h
      have ht : tr2 = rest.map (fun a => Effect.runGit a (some env) dst) := by
        have := ih (by rw [hr, h2])
        rw [hr] at this
        simpa using this
      simp only [runAll, Git.run, hx, hr, List.map_cons]
      simp [ht]
    · exfalso
      simp [runAll, Git.run, hx] at h

theorem runAll_trace_shape (w : World) (env : List String) (dst : String)
    (l : List (List String)) :
    ∀ e ∈ (runAll w env dst l).1, ∃ a, e = Effect.runGit a (some env) dst := by
  induction l with
  | nil => simp [runAll]
  | cons a rest ih =>
    rcases hx : (w.gitExec a).exitErr with _ | e
    · rcases hr : runAll w env dst rest with ⟨tr2, r2⟩
      simp only [runAll, Git.run, hx, hr]
      intro e he
      rcases (by simpa using he : e = Effect.runGit a (some env) dst ∨ e ∈ tr2) with he' | he'
      · exact ⟨a, he'⟩
      · exact ih e (by rw [hr]; exact he')
    · simp only [runAll, Git.run, hx]
      intro e he
      exact ⟨a, by simpa using he⟩

theorem runAll_error_shape (w : World) (env : List String) (dst : String)
    (l : List (List String)) (e : String) (h : (runAll w env dst l).2 = .error e) :
    ∃ x, e = "Git " ++ x := by
  induction l with
  | nil => simp [runAll] at h
  | cons a rest ih =>
    rcases hx : (w.gitExec a).exitErr with _ | er
    · rcases hr : runAll w env dst rest with ⟨tr2, r2⟩
      simp only [runAll, Git.run, hx, hr] at h
      exact ih (by rw [hr]; simpa using h)
    · simp only [runAll, Git.run, hx] at h
      simp at h
      exact ⟨goFmtArgs a ++ ": " ++ er ++ " (stderr: " ++ (w.gitExec a).stderr ++ ")",
        by rw [← h]; simp [String.append_assoc]⟩

/-- C4: with an empty URL or an empty ref, Retrieve returns the corresponding
validation error with an empty effect trace: no git subprocess runs and no
staging fetch (no temp dir, no write, no removal) is created. -/
theorem retrieve_empty_url_or_ref_validates (w : World) (t : DirectoryContentsGit)
    (dst : String) (h : t.URL = "" ∨ t.Ref = "") :
    (Git.Retrieve w t dst).1 = [] ∧
    ((Git.Retrieve w t dst).2 = .error "Expected non-empty URL" ∨
     (Git.Retrieve w t dst).2 =
       .error "Expected non-empty ref (could be branch, tag, commit)") := by
  by_cases hu : t.URL = ""
  · simp [Git.Retrieve, hu]
  · rcases h with h | h
    · exact absurd h hu
    · simp [Git.Retrieve, hu, h]

theorem retrieve_empty_url_or_ref_validates_witness :
    (Git.Retrieve baseWorld { URL := "", Ref := "main" } "/dst").1 = [] ∧
    ((Git.Retrieve baseWorld { URL := "", Ref := "main" } "/dst").2 =
       .error "Expected non-empty URL" ∨
     (Git.Retrieve baseWorld { URL := "", Ref := "main" } "/dst").2 =
       .error "Expected non-empty ref (could be branch, tag, commit)") :=
  retrieve_empty_url_or_ref_validates baseWorld { URL := "", Ref := "main" } "/dst"
    (Or.inl rfl)

theorem gitCmdsOf_append (l1 l2 : List Effect) :
    gitCmdsOf (l1 ++ l2) = gitCmdsOf l1 ++ gitCmdsOf l2 := by
  simp [gitCmdsOf]

theorem writeKey_trace_shape (w : World) (o : gitAuthOpts) (d : String) :
    ∀ e ∈ (writeKey w o d).1, ∃ c, e = Effect.writeFile (d ++ "/private-key") c 0o600 := by
  rcases hpk : o.PrivateKey with _ | key <;> simp [writeKey, hpk]

theorem writeKnownHosts_trace_shape (w : World) (o : gitAuthOpts) (d : String) :
    ∀ e ∈ (writeKnownHosts w o d).1, ∃ c, e = Effect.writeFile (d ++ "/known-hosts") c 0o600 := by
  rcases hkh : o.KnownHosts with _ | hosts <;> simp [writeKnownHosts, hkh]

theorem writeAuthMaterial_trace_shape (w : World) (o : gitAuthOpts) (d : String) :
    ∀ e ∈ (writeAuthMaterial w o d).1,
      (∃ c, e = Effect.writeFile (d ++ "/private-key") c 0o600) ∨
      (∃ c, e = Effect.writeFile (d ++ "/known-hosts") c 0o600) := by
  unfold writeAuthMaterial
  cases hp : o.IsPresent
  · simp
  · simp only [if_pos]
    rcases hk : writeKey w o d with ⟨trK, resK⟩
    rcases resK with e | u
    · intro e he
      exact Or.inl (writeKey_trace_shape w o d e (by rw [hk]; simpa using he))
    · rcases u
      rcases hh : writeKnownHosts w o d with ⟨trH, resH⟩
      rcases resH with e | u
      · intro e he
        rcases List.mem_append.mp (by simpa using he) with he' | he'
        · exact Or.inl (writeKey_trace_shape w o d e (by rw [hk]; exact he'))
        · exact Or.inr (writeKnownHosts_trace_shape w o d e (by rw [hh]; exact he'))
      · rcases u
        intro e he
        rcases List.mem_append.mp (by simpa using he) with he' | he'
        · exact Or.inl (writeKey_trace_shape w o d e (by rw [hk]; exact he'))
        · exact Or.inr (writeKnownHosts_trace_shape w o d e (by rw [hh]; exact he'))

theorem writeCreds_trace_shape (w : World) (t : DirectoryContentsGit)
    (o : gitAuthOpts) (p : String) :
    ∀ e ∈ (writeCreds w t o p).1, ∃ c, e = Effect.writeFile p c 0o600 := by
  unfold writeCreds
  rcases o.Username with _ | user <;> rcases o.Password with _ | pass <;> simp
  split
  · simp
  · rcases w.credsUrlString t.URL user pass with e | s <;> simp

theorem gitCmdsOf_eq_nil_of_writes (tr : List Effect)
    (h : ∀ e ∈ tr, ∃ p c m, e = Effect.writeFile p c m) : gitCmdsOf tr = [] := by
  induction tr with
  | nil => rfl
  | cons e rest ih =>
    rcases h e (by simp) with ⟨p, c, m, rfl⟩
    simpa [gitCmdsOf] using ih (fun e he => h e (by simp [he]))

theorem gitCmdsOf_writeAuthMaterial (w : World) (o : gitAuthOpts) (d : String) :
    gitCmdsOf (writeAuthMaterial w o d).1 = [] := by
  refine gitCmdsOf_eq_nil_of_writes _ (fun e he => ?_)
  rcases writeAuthMaterial_trace_shape w o d e he with ⟨c, rfl⟩ | ⟨c, rfl⟩ <;>
    exact ⟨_, c, 0o600, rfl⟩

theorem gitCmdsOf_writeCreds (w : World) (t : DirectoryContentsGit)
    (o : gitAuthOpts) (p : String) :
    gitCmdsOf (writeCreds w t o p).1 = [] := by
  refine gitCmdsOf_eq_nil_of_writes _ (fun e he => ?_)
  rcases writeCreds_trace_shape w t o p e he with ⟨c, rfl⟩
  exact ⟨p, c, 0o600, rfl⟩

theorem fetchBody_authErr (w : World) (t : DirectoryContentsGit) (dst : String)
    (sk : Bool) (o : gitAuthOpts) (d : String) (trA : List Effect) (e : String)
    (hA : writeAuthMaterial w o d = (trA, .error e)) :
    Git.fetchBody w t dst sk o d = (trA, .error e) := by
  unfold Git.fetchBody
  rw [hA]

theorem fetchBody_credsErr (w : World) (t : DirectoryContentsGit) (dst : String)
    (sk : Bool) (o : gitAuthOpts) (d : String) (trA trC : List Effect)
    (sshEnvEntry : Option String) (e : String)
    (hA : writeAuthMaterial w o d = (trA, .ok sshEnvEntry))
    (hC : writeCreds w t o (d ++ "/.git-credentials") = (trC, .error e)) :
    Git.fetchBody w t dst sk o d = (trA ++ trC, .error e) := by
  unfold Git.fetchBody
  rw [hA, hC]

theorem fetchBody_eq (w : World) (t : DirectoryContentsGit) (dst : String)
    (sk : Bool) (o : gitAuthOpts) (d : String) (trA trC : List Effect)
    (sshEnvEntry : Option String)
    (hA : writeAuthMaterial w o d = (trA, .ok sshEnvEntry))
    (hC : writeCreds w t o (d ++ "/.git-credentials") = (trC, .ok ())) :
    Git.fetchBody w t dst sk o d =
      (trA ++ trC ++ (runAll w (fetchEnv w t sshEnvEntry) dst
          (gitArgss (d ++ "/.git-credentials") t.URL t.Ref sk)).1,
       (runAll w (fetchEnv w t sshEnvEntry) dst
          (gitArgss (d ++ "/.git-credentials") t.URL t.Ref sk)).2) := by
  unfold Git.fetchBody
  rw [hA, hC]

theorem fetch_eq (w : World) (t : DirectoryContentsGit) (dst : String) (sk : Bool)
    (o : gitAuthOpts) (d : String)
    (ha : Git.getAuthOpts w t = .ok o) (htd : w.newTempDir "git-auth" = .ok d) :
    Git.fetch w t dst sk =
      (Effect.newTempDir "git-auth" ::
        ((Git.fetchBody w t dst sk o d).1 ++ [Effect.removeAll d]),
       (Git.fetchBody w t dst sk o d).2) := by
  unfold Git.fetch
  rw [ha, htd]

theorem gitCmdsOf_cons_newTempDir (s : String) (tr : List Effect) :
    gitCmdsOf (Effect.newTempDir s :: tr) = gitCmdsOf tr := by
  simp [gitCmdsOf]

theorem gitCmdsOf_snoc_removeAll (tr : List Effect) (p : String) :
    gitCmdsOf (tr ++ [Effect.removeAll p]) = gitCmdsOf tr := by
  simp [gitCmdsOf]

theorem gitCmdsOf_map_runGit (l : List (List String)) (env : Option (List String))
    (dst : String) :
    gitCmdsOf (l.map (fun a => Effect.runGit a env dst)) = l.map (fun a => (a, dst)) := by
  induction l with
  | nil => rfl
  | cons a rest ih => simp [gitCmdsOf] at ih ⊢; exact ih

/-- C3: in a fetch that performs a checkout (skeleton = false) and succeeds,
the git subprocesses run in dstPath are exactly, in order: init; the
credential-helper configuration pointing at the temp credential file; remote
add origin; fetch origin; checkout of the configured ref with detached-head
advice suppressed; recursive submodule init/update. -/
theorem fetch_checkout_git_command_order (w : World) (t : DirectoryContentsGit)
    (dst authDir : String) (htd : w.newTempDir "git-auth" = .ok authDir)
    (hok : (Git.fetch w t dst false).2 = .ok ()) :
    gitCmdsOf (Git.fetch w t dst false).1 =
      [(["init"], dst),
       (["config", "credential.helper",
          "store --file " ++ (authDir ++ "/.git-credentials")], dst),
       (["remote", "add", "origin", t.URL], dst),
       (["fetch", "origin"], dst),
       (["-c", "advice.detachedHead=false", "checkout", t.Ref], dst),
       (["submodule", "update", "--init", "--recursive"], dst)] := by
  rcases ha : Git.getAuthOpts w t with e | o
  · simp [Git.fetch, ha] at hok
  · rw [fetch_eq w t dst false o authDir ha htd] at hok ⊢
    rcases hA : writeAuthMaterial w o authDir with ⟨trA, resA⟩
    rcases resA with e | sshEnvEntry
    · rw [fetchBody_authErr w t dst false o authDir trA e hA] at hok
      simp at hok
    · rcases hC : writeCreds w t o (authDir ++ "/.git-credentials") with ⟨trC, resC⟩
      rcases resC with e | u
      · rw [fetchBody_credsErr w t dst false o authDir trA trC sshEnvEntry e hA hC] at hok
        simp at hok
      · rcases u
        rw [fetchBody_eq w t dst false o authDir trA trC sshEnvEntry hA hC] at hok ⊢
        have hRtr := runAll_ok_trace _ _ _ _ hok
        have hA0 : gitCmdsOf trA = [] := by
          have := gitCmdsOf_writeAuthMaterial w o authDir
          rw [hA] at this; exact this
        have hC0 : gitCmdsOf trC = [] := by
          have := gitCmdsOf_writeCreds w t o (authDir ++ "/.git-credentials")
          rw [hC] at this; exact this
        rw [gitCmdsOf_cons_newTempDir, gitCmdsOf_snoc_removeAll, hRtr,
          gitCmdsOf_append, gitCmdsOf_append, hA0, hC0, gitCmdsOf_map_runGit]
        simp [gitArgss]


theorem fetch_checkout_git_command_order_witness :
    gitCmdsOf (Git.fetch baseWorld plainGitOpts "/dst" false).1 =
      [(["init"], "/dst"),
       (["config", "credential.helper",
          "store --file " ++ ("/tmp/vendir/git-auth" ++ "/.git-credentials")], "/dst"),
       (["remote", "add", "origin", "https://example.com/repo.git"], "/dst"),
       (["fetch", "origin"], "/dst"),
       (["-c", "advice.detachedHead=false", "checkout", "main"], "/dst"),
       (["submodule", "update", "--init", "--recursive"], "/dst")] :=
  fetch_checkout_git_command_order baseWorld plainGitOpts "/dst" "/tmp/vendir/git-auth"
    rfl rfl

theorem fetchBody_write_shape (w : World) (t : DirectoryContentsGit) (dst : String)
    (sk : Bool) (o : gitAuthOpts) (d : String) :
    ∀ p c m, Effect.writeFile p c m ∈ (Git.fetchBody w t dst sk o d).1 →
      m = 0o600 ∧ (p = d ++ "/private-key" ∨ p = d ++ "/known-hosts" ∨
        p = d ++ "/.git-credentials") := by
  intro p c m hm
  have fromA : Effect.writeFile p c m ∈ (writeAuthMaterial w o d).1 →
      m = 0o600 ∧ (p = d ++ "/private-key" ∨ p = d ++ "/known-hosts" ∨
        p = d ++ "/.git-credentials") := by
    intro h
    rcases writeAuthMaterial_trace_shape w o d _ h with ⟨c', hc⟩ | ⟨c', hc⟩
    · rw [Effect.writeFile.injEq] at hc
      exact ⟨hc.2.2, Or.inl hc.1⟩
    · rw [Effect.writeFile.injEq] at hc
      exact ⟨hc.2.2, Or.inr (Or.inl hc.1)⟩
  have fromC : Effect.writeFile p c m ∈ (writeCreds w t o (d ++ "/.git-credentials")).1 →
      m = 0o600 ∧ (p = d ++ "/private-key" ∨ p = d ++ "/known-hosts" ∨
        p = d ++ "/.git-credentials") := by
    intro h
    rcases writeCreds_trace_shape w t o _ _ h with ⟨c', hc⟩
    rw [Effect.writeFile.injEq] at hc
    exact ⟨hc.2.2, Or.inr (Or.inr hc.1)⟩
  have fromR : ∀ env argss, Effect.writeFile p c m ∈ (runAll w env dst argss).1 → False := by
    intro env argss h
    rcases runAll_trace_shape w env dst argss _ h with ⟨a, hc⟩
    simp at hc
  rcases hA : writeAuthMaterial w o d with ⟨trA, resA⟩
  rcases resA with e | sshEnvEntry
  · rw [fetchBody_authErr w t dst sk o d trA e hA] at hm
    exact fromA (by rw [hA]; exact hm)
  · rcases hC : writeCreds w t o (d ++ "/.git-credentials") with ⟨trC, resC⟩
    rcases resC with e | u
    · rw [fetchBody_credsErr w t dst sk o d trA trC sshEnvEntry e hA hC] at hm
      rcases List.mem_append.mp hm with h | h
      · exact fromA (by rw [hA]; exact h)
      · exact fromC (by rw [hC]; exact h)
    · rcases u
      rw [fetchBody_eq w t dst sk o d trA trC sshEnvEntry hA hC] at hm
      rcases List.mem_append.mp hm with h | h
      · rcases List.mem_append.mp h with h' | h'
        · exact fromA (by rw [hA]; exact h')
        · exact fromC (by rw [hC]; exact h')
      · exact absurd h (fun hh => fromR _ _ hh)

/-- C9: once the git-auth temp dir exists, every file the fetch writes (the
private key, the known-hosts file, the credential-store file) is written with
mode 0600 at a path inside that dir, and the very last effect of the fetch,
on success and on every error path, is the removal of that dir (the deferred
os.RemoveAll). -/
theorem fetch_auth_hygiene (w : World) (t : DirectoryContentsGit) (dst : String)
    (sk : Bool) (o : gitAuthOpts) (authDir : String)
    (ha : Git.getAuthOpts w t = .ok o)
    (htd : w.newTempDir "git-auth" = .ok authDir) :
    (∀ p c m, Effect.writeFile p c m ∈ (Git.fetch w t dst sk).1 →
        m = 0o600 ∧ (p = authDir ++ "/private-key" ∨ p = authDir ++ "/known-hosts" ∨
          p = authDir ++ "/.git-credentials")) ∧
    (Git.fetch w t dst sk).1.getLast? = some (Effect.removeAll authDir) := by
  rw [fetch_eq w t dst sk o authDir ha htd]
  constructor
  · intro p c m hm
    have hm' : Effect.writeFile p c m ∈ (Git.fetchBody w t dst sk o authDir).1 := by
      rcases List.mem_cons.mp hm with h | h
      · exact absurd h (by simp)
      · rcases List.mem_append.mp h with h' | h'
        · exact h'
        · exact absurd h' (by simp)
    exact fetchBody_write_shape w t dst sk o authDir p c m hm'
  · rw [show Effect.newTempDir "git-auth" ::
        ((Git.fetchBody w t dst sk o authDir).1 ++ [Effect.removeAll authDir]) =
        (Effect.newTempDir "git-auth" :: (Git.fetchBody w t dst sk o authDir).1) ++
          [Effect.removeAll authDir] from rfl]
    exact List.getLast?_concat _

/-- World whose secret carries an SSH private key; all other operations
succeed. -/
def sshSecretWorld : World :=
  { baseWorld with
    getSecret := fun _ => .ok ⟨[(secretSSHPrivateKeyField, "PRIVATE KEY DATA")]⟩ }

/-- A git source fetched over SSH with a secret reference. -/
def sshGitOpts : DirectoryContentsGit where
  URL := "git@example.com:repo.git"
  Ref := "main"
  SecretRef := some ⟨"git-ssh"⟩

theorem fetch_auth_hygiene_witness :
    (∀ p c m, Effect.writeFile p c m ∈ (Git.fetch sshSecretWorld sshGitOpts "/dst" false).1 →
        m = 0o600 ∧ (p = "/tmp/vendir/git-auth" ++ "/private-key" ∨
          p = "/tmp/vendir/git-auth" ++ "/known-hosts" ∨
          p = "/tmp/vendir/git-auth" ++ "/.git-credentials")) ∧
    (Git.fetch sshSecretWorld sshGitOpts "/dst" false).1.getLast? =
      some (Effect.removeAll "/tmp/vendir/git-auth") :=
  fetch_auth_hygiene sshSecretWorld sshGitOpts "/dst" false
    { PrivateKey := some "PRIVATE KEY DATA" } "/tmp/vendir/git-auth" rfl rfl

theorem head_append_of_head (d : String) (c : Char) (hd : d.data.head? = some c)
    (lit : String) : (d ++ lit).data.head? = some c := by
  rcases d with ⟨l⟩
  cases l with
  | nil => simp at hd
  | cons a rest =>
    rcases lit with ⟨m⟩
    simpa using hd

theorem ne_append_of_head_ne (s d lit : String) (c c' : Char)
    (hs : s.data.head? = some c) (hd : d.data.head? = some c') (hne : c ≠ c') :
    s ≠ d ++ lit := by
  intro he
  have h2 := head_append_of_head d c' hd lit
  rw [← he, hs] at h2
  exact hne (Option.some.inj h2)

/-- C7: the SSH command the git fetcher constructs always pins, in its fixed
seven-element head, ForwardAgent=no, ServerAliveInterval=30 and no default
config file (-F /dev/null); it contains StrictHostKeyChecking=yes exactly
when known-hosts material was supplied and StrictHostKeyChecking=no exactly
when it was not; and whenever auth material is present and the auth-file
writes succeed, exactly this command joined with spaces becomes the value the
engine exports as GIT_SSH_COMMAND.  The auth dir is a temp path, hence
assumed to start with a slash. -/
theorem ssh_command_pins (w : World) (o : gitAuthOpts) (authDir : String)
    (hd : authDir.data.head? = some '/') :
    (sshCmdFor authDir o).take 7 =
      ["ssh", "-o", "ServerAliveInterval=30", "-o", "ForwardAgent=no", "-F", "/dev/null"] ∧
    ("StrictHostKeyChecking=yes" ∈ sshCmdFor authDir o ↔ o.KnownHosts.isSome = true) ∧
    ("StrictHostKeyChecking=no" ∈ sshCmdFor authDir o ↔ o.KnownHosts = none) ∧
    (o.IsPresent = true → (∀ p, w.writeFileErr p = none) →
      (writeAuthMaterial w o authDir).2 =
        .ok (some ("GIT_SSH_COMMAND=" ++ String.intercalate " " (sshCmdFor authDir o)))) := by
  have hne1 : ("StrictHostKeyChecking=yes" : String) ≠ authDir ++ "/private-key" :=
    ne_append_of_head_ne _ _ _ 'S' '/' (by decide) hd (by decide)
  have hne2 : ("StrictHostKeyChecking=no" : String) ≠ authDir ++ "/private-key" :=
    ne_append_of_head_ne _ _ _ 'S' '/' (by decide) hd (by decide)
  have hne3 : ("StrictHostKeyChecking=yes" : String) ≠
      "UserKnownHostsFile=" ++ (authDir ++ "/known-hosts") :=
    ne_append_of_head_ne _ _ _ 'S' 'U' (by decide) (by decide) (by decide)
  have hne4 : ("StrictHostKeyChecking=no" : String) ≠
      "UserKnownHostsFile=" ++ (authDir ++ "/known-hosts") :=
    ne_append_of_head_ne _ _ _ 'S' 'U' (by decide) (by decide) (by decide)
  rcases o with ⟨pk, kh, un, pw⟩
  rcases pk with _ | k <;> rcases kh with _ | kn <;>
    refine ⟨?_, ?_, ?_, fun hip hw => ?_⟩ <;>
    simp_all [sshCmdFor, sshCmdWithKey, sshCmdBase, writeAuthMaterial, writeKey,
      writeKnownHosts, gitAuthOpts.IsPresent]

theorem ssh_command_pins_witness :
    (sshCmdFor "/tmp/vendir/git-auth" { KnownHosts := some "example.com ssh-ed25519 AAA" }).take 7 =
      ["ssh", "-o", "ServerAliveInterval=30", "-o", "ForwardAgent=no", "-F", "/dev/null"] ∧
    ("StrictHostKeyChecking=yes" ∈
        sshCmdFor "/tmp/vendir/git-auth" { KnownHosts := some "example.com ssh-ed25519 AAA" } ↔
      (some "example.com ssh-ed25519 AAA" : Option String).isSome = true) ∧
    ("StrictHostKeyChecking=no" ∈
        sshCmdFor "/tmp/vendir/git-auth" { KnownHosts := some "example.com ssh-ed25519 AAA" } ↔
      (some "example.com ssh-ed25519 AAA" : Option String) = none) ∧
    (gitAuthOpts.IsPresent { KnownHosts := some "example.com ssh-ed25519 AAA" } = true →
      (∀ p, baseWorld.writeFileErr p = none) →
      (writeAuthMaterial baseWorld { KnownHosts := some "example.com ssh-ed25519 AAA" }
          "/tmp/vendir/git-auth").2 =
        .ok (some ("GIT_SSH_COMMAND=" ++ String.intercalate " "
          (sshCmdFor "/tmp/vendir/git-auth" { KnownHosts := some "example.com ssh-ed25519 AAA" })))) :=
  ssh_command_pins baseWorld { KnownHosts := some "example.com ssh-ed25519 AAA" }
    "/tmp/vendir/git-auth" (by decide)

theorem writeAuthMaterial_ok (w : World) (o : gitAuthOpts) (d : String)
    (hw : ∀ p, w.writeFileErr p = none) :
    ∃ trA sshE, writeAuthMaterial w o d = (trA, .ok sshE) := by
  unfold writeAuthMaterial
  cases hip : o.IsPresent
  · simp
  · rcases hpk : o.PrivateKey with _ | k <;> rcases hkh : o.KnownHosts with _ | kn <;>
      simp [writeKey, writeKnownHosts, hpk, hkh, hw]

theorem writeCreds_rejects (w : World) (t : DirectoryContentsGit) (o : gitAuthOpts)
    (p : String) (hu : o.Username.isSome = true) (hp : o.Password.isSome = true)
    (hurl : strHasPre t.URL "https://" = false) :
    writeCreds w t o p =
      ([], .error "Username/password authentication is only supported for https remotes") := by
  rcases hu2 : o.Username with _ | user
  · rw [hu2] at hu; simp at hu
  · rcases hp2 : o.Password with _ | pass
    · rw [hp2] at hp; simp at hp
    · simp [writeCreds, hu2, hp2, hurl]

/-- C6: when the resolved auth options carry both a username and a password
and the remote URL is not https, the fetch fails with the dedicated
rejection message and no git subprocess is run. -/
theorem userpass_requires_https (w : World) (t : DirectoryContentsGit)
    (dst : String) (sk : Bool) (o : gitAuthOpts) (authDir : String)
    (ha : Git.getAuthOpts w t = .ok o)
    (htd : w.newTempDir "git-auth" = .ok authDir)
    (hw : ∀ p, w.writeFileErr p = none)
    (hu : o.Username.isSome = true) (hp : o.Password.isSome = true)
    (hurl : strHasPre t.URL "https://" = false) :
    (Git.fetch w t dst sk).2 =
      .error "Username/password authentication is only supported for https remotes" ∧
    gitCmdsOf (Git.fetch w t dst sk).1 = [] := by
  rw [fetch_eq w t dst sk o authDir ha htd]
  rcases writeAuthMaterial_ok w o authDir hw with ⟨trA, sshE, hA⟩
  rw [fetchBody_credsErr w t dst sk o authDir trA [] sshE _ hA
    (writeCreds_rejects w t o (authDir ++ "/.git-credentials") hu hp hurl)]
  refine ⟨rfl, ?_⟩
  rw [gitCmdsOf_cons_newTempDir, gitCmdsOf_snoc_removeAll, gitCmdsOf_append]
  have hA0 : gitCmdsOf trA = [] := by
    have := gitCmdsOf_writeAuthMaterial w o authDir
    rw [hA] at this; exact this
  rw [hA0]
  rfl

/-- World whose secret carries a basic-auth username and password. -/
def userPassWorld : World :=
  { baseWorld with
    getSecret := fun _ =>
      .ok ⟨[(secretUsernameField, "alice"), (secretPasswordField, "hunter2")]⟩ }

/-- A git source with an SSH-style (non-https) URL and a secret reference. -/
def sshUrlGitOpts : DirectoryContentsGit where
  URL := "git@example.com:org/repo.git"
  Ref := "main"
  SecretRef := some ⟨"creds"⟩

theorem userpass_requires_https_witness :
    (Git.fetch userPassWorld sshUrlGitOpts "/dst" false).2 =
      .error "Username/password authentication is only supported for https remotes" ∧
    gitCmdsOf (Git.fetch userPassWorld sshUrlGitOpts "/dst" false).1 = [] :=
  userpass_requires_https userPassWorld sshUrlGitOpts "/dst" false
    { Username := some "alice", Password := some "hunter2" } "/tmp/vendir/git-auth"
    (by decide) rfl (fun _ => rfl) rfl rfl (by decide)

theorem writeCreds_skip (w : World) (t : DirectoryContentsGit) (o : gitAuthOpts)
    (p : String) (hxor : o.Username.isSome ≠ o.Password.isSome) :
    writeCreds w t o p = ([], .ok ()) := by
  rcases hu : o.Username with _ | user <;> rcases hp : o.Password with _ | pass
  · simp [writeCreds, hu, hp]
  · simp [writeCreds, hu, hp]
  · simp [writeCreds, hu, hp]
  · rw [hu, hp] at hxor
    simp at hxor

theorem gitArgss_cons (p url ref : String) (sk : Bool) :
    gitArgss p url ref sk = ["init"] ::
      ([["config", "credential.helper", "store --file " ++ p],
        ["remote", "add", "origin", url],
        ["fetch", "origin"]] ++
       (if sk then []
        else [["-c", "advice.detachedHead=false", "checkout", ref],
              ["submodule", "update", "--init", "--recursive"]])) := by
  simp [gitArgss]

theorem gitCmdsOf_runAll_head (w : World) (env : List String) (dst : String)
    (a : List String) (rest : List (List String)) :
    (gitCmdsOf (runAll w env dst (a :: rest)).1).head? = some (a, dst) := by
  rcases hx : (w.gitExec a).exitErr with _ | e <;>
    simp [runAll, Git.run, hx, gitCmdsOf]

/-- C10: when the resolved auth options carry exactly one of username and
password, the credential-store file is never written (every write is SSH
material), the fetch never fails with the username/password-https rejection,
and the git command sequence is entered: the first subprocess is git init in
dstPath.  The partial basic-auth material is silently ignored. -/
theorem lone_userpass_ignored (w : World) (t : DirectoryContentsGit)
    (dst : String) (sk : Bool) (o : gitAuthOpts) (authDir : String)
    (ha : Git.getAuthOpts w t = .ok o)
    (htd : w.newTempDir "git-auth" = .ok authDir)
    (hw : ∀ p, w.writeFileErr p = none)
    (hxor : o.Username.isSome ≠ o.Password.isSome) :
    (∀ p c m, Effect.writeFile p c m ∈ (Git.fetch w t dst sk).1 →
        p = authDir ++ "/private-key" ∨ p = authDir ++ "/known-hosts") ∧
    (∀ e, (Git.fetch w t dst sk).2 = .error e →
        e ≠ "Username/password authentication is only supported for https remotes") ∧
    (gitCmdsOf (Git.fetch w t dst sk).1).head? = some (["init"], dst) := by
  rcases writeAuthMaterial_ok w o authDir hw with ⟨trA, sshE, hA⟩
  have hC := writeCreds_skip w t o (authDir ++ "/.git-credentials") hxor
  rw [fetch_eq w t dst sk o authDir ha htd,
      fetchBody_eq w t dst sk o authDir trA [] sshE hA hC]
  have hA0 : gitCmdsOf trA = [] := by
    have := gitCmdsOf_writeAuthMaterial w o authDir
    rw [hA] at this; exact this
  refine ⟨?_, ?_, ?_⟩
  · intro p c m hm
    have hmem : Effect.writeFile p c m ∈ trA := by
      rcases List.mem_cons.mp hm with h | h
      · exact absurd h (by simp)
      · rcases List.mem_append.mp h with h' | h'
        · rcases List.mem_append.mp h' with h2 | h2
          · simp only [List.append_nil] at h2
            exact h2
          · exact absurd h2 (fun hh => by
              rcases runAll_trace_shape _ _ _ _ _ hh with ⟨a, ha2⟩
              simp at ha2)
        · exact absurd h' (by simp)
    rcases writeAuthMaterial_trace_shape w o authDir _ (by rw [hA]; exact hmem) with
      ⟨c', hc⟩ | ⟨c', hc⟩
    · rw [Effect.writeFile.injEq] at hc
      exact Or.inl hc.1
    · rw [Effect.writeFile.injEq] at hc
      exact Or.inr hc.1
  · intro e he
    rcases runAll_error_shape w (fetchEnv w t sshE) dst
      (gitArgss (authDir ++ "/.git-credentials") t.URL t.Ref sk) e he with ⟨x, rfl⟩
    intro hee
    exact (ne_append_of_head_ne
      "Username/password authentication is only supported for https remotes"
      "Git " x 'U' 'G' (by decide) (by decide) (by decide)) hee.symm
  · rw [gitCmdsOf_cons_newTempDir, gitCmdsOf_snoc_removeAll, gitCmdsOf_append,
      gitCmdsOf_append, hA0]
    rw [show gitCmdsOf ([] : List Effect) = [] from rfl]
    simp only [List.append_nil, List.nil_append]
    rw [gitArgss_cons]
    exact gitCmdsOf_runAll_head w (fetchEnv w t sshE) dst _ _

/-- World whose secret carries only a basic-auth username (no password). -/
def loneUserWorld : World :=
  { baseWorld with
    getSecret := fun _ => .ok ⟨[(secretUsernameField, "alice")]⟩ }

theorem lone_userpass_ignored_witness :
    (∀ p c m, Effect.writeFile p c m ∈ (Git.fetch loneUserWorld sshUrlGitOpts "/dst" false).1 →
        p = "/tmp/vendir/git-auth" ++ "/private-key" ∨
        p = "/tmp/vendir/git-auth" ++ "/known-hosts") ∧
    (∀ e, (Git.fetch loneUserWorld sshUrlGitOpts "/dst" false).2 = .error e →
        e ≠ "Username/password authentication is only supported for https remotes") ∧
    (gitCmdsOf (Git.fetch loneUserWorld sshUrlGitOpts "/dst" false).1).head? =
      some (["init"], "/dst") :=
  lone_userpass_ignored loneUserWorld sshUrlGitOpts "/dst" false
    { Username := some "alice" } "/tmp/vendir/git-auth"
    (by decide) rfl (fun _ => rfl) (by decide)

theorem gitEnvsOf_append (l1 l2 : List Effect) :
    gitEnvsOf (l1 ++ l2) = gitEnvsOf l1 ++ gitEnvsOf l2 := by
  simp [gitEnvsOf]

theorem gitEnvsOf_eq_nil_of_writes (tr : List Effect)
    (h : ∀ e ∈ tr, ∃ p c m, e = Effect.writeFile p c m) : gitEnvsOf tr = [] := by
  induction tr with
  | nil => rfl
  | cons e rest ih =>
    rcases h e (by simp) with ⟨p, c, m, rfl⟩
    simpa [gitEnvsOf] using ih (fun e he => h e (by simp [he]))

theorem gitEnvsOf_const (tr : List Effect) (env : List String) (dst : String)
    (h : ∀ e ∈ tr, ∃ a, e = Effect.runGit a (some env) dst) :
    ∀ x ∈ gitEnvsOf tr, x = some env := by
  induction tr with
  | nil => simp [gitEnvsOf]
  | cons e rest ih =>
    rcases h e (by simp) with ⟨a, rfl⟩
    intro x hx
    rcases (by simpa [gitEnvsOf] using hx : x = some env ∨ x ∈ gitEnvsOf rest) with hx' | hx'
    · exact hx'
    · exact ih (fun e he => h e (by simp [he])) x hx'

theorem writeAuthMaterial_ok_ssh (w : World) (o : gitAuthOpts) (d : String)
    (hip : o.IsPresent = true) (hw : ∀ p, w.writeFileErr p = none) :
    ∃ trA, writeAuthMaterial w o d =
      (trA, .ok (some ("GIT_SSH_COMMAND=" ++ String.intercalate " " (sshCmdFor d o)))) := by
  unfold writeAuthMaterial
  rw [hip]
  rcases hpk : o.PrivateKey with _ | k <;> rcases hkh : o.KnownHosts with _ | kn <;>
    simp [writeKey, writeKnownHosts, hpk, hkh, hw]

/-- C8 amended: whenever the resolved auth options are present (and the auth
writes succeed), every git subprocess of the fetch receives an environment
equal to the ambient entries with the engine's GIT_SSH_COMMAND entry appended
after them (the last duplicate wins in os/exec, so the ambient value is
overridden); with no auth material the engine appends nothing and the ambient
value passes through. -/
theorem git_ssh_env_when_auth_present (w : World) (t : DirectoryContentsGit)
    (dst : String) (sk : Bool) (o : gitAuthOpts) (authDir : String)
    (ha : Git.getAuthOpts w t = .ok o)
    (htd : w.newTempDir "git-auth" = .ok authDir)
    (hip : o.IsPresent = true)
    (hw : ∀ p, w.writeFileErr p = none) :
    ∀ x ∈ gitEnvsOf (Git.fetch w t dst sk).1,
      x = some (w.environ ++
        ["GIT_SSH_COMMAND=" ++ String.intercalate " " (sshCmdFor authDir o)] ++
        (if t.LFSSkipSmudge then ["GIT_LFS_SKIP_SMUDGE=1"] else [])) := by
  rcases writeAuthMaterial_ok_ssh w o authDir hip hw with ⟨trA, hA⟩
  have hA0 : gitEnvsOf trA = [] := by
    refine gitEnvsOf_eq_nil_of_writes _ (fun e he => ?_)
    rcases writeAuthMaterial_trace_shape w o authDir e (by rw [hA]; exact he) with
      ⟨c, rfl⟩ | ⟨c, rfl⟩ <;> exact ⟨_, c, 0o600, rfl⟩
  rcases hC : writeCreds w t o (authDir ++ "/.git-credentials") with ⟨trC, resC⟩
  have hC0 : gitEnvsOf trC = [] := by
    refine gitEnvsOf_eq_nil_of_writes _ (fun e he => ?_)
    rcases writeCreds_trace_shape w t o _ e (by rw [hC]; exact he) with ⟨c, rfl⟩
    exact ⟨_, c, 0o600, rfl⟩
  rcases resC with e | u
  · rw [fetch_eq w t dst sk o authDir ha htd,
      fetchBody_credsErr w t dst sk o authDir trA trC _ e hA hC]
    intro x hx
    rcases (by simpa [gitEnvsOf] using hx : x ∈ gitEnvsOf ((trA ++ trC) ++ [Effect.removeAll authDir])) with hx'
    rw [gitEnvsOf_append, gitEnvsOf_append, hA0, hC0] at hx'
    simp [gitEnvsOf] at hx'
  · rcases u
    rw [fetch_eq w t dst sk o authDir ha htd,
      fetchBody_eq w t dst sk o authDir trA trC _ hA hC]
    intro x hx
    have hx2 : x ∈ gitEnvsOf (runAll w
        (fetchEnv w t (some ("GIT_SSH_COMMAND=" ++ String.intercalate " " (sshCmdFor authDir o))))
        dst (gitArgss (authDir ++ "/.git-credentials") t.URL t.Ref sk)).1 := by
      rcases (by simpa [gitEnvsOf] using hx :
          x ∈ gitEnvsOf ((trA ++ trC ++ (runAll w
            (fetchEnv w t (some ("GIT_SSH_COMMAND=" ++ String.intercalate " " (sshCmdFor authDir o))))
            dst (gitArgss (authDir ++ "/.git-credentials") t.URL t.Ref sk)).1) ++
            [Effect.removeAll authDir])) with hx'
      rw [gitEnvsOf_append, gitEnvsOf_append, gitEnvsOf_append, hA0, hC0] at hx'
      simpa [gitEnvsOf] using hx'
    have := gitEnvsOf_const _ _ _ (runAll_trace_shape w _ dst _) x hx2
    rw [this]
    simp [fetchEnv]

/-- World with an ambient GIT_SSH_COMMAND already exported and no secret
configured. -/
def ambientSshWorld : World :=
  { baseWorld with
    environ := ["PATH=/usr/bin",
      "GIT_SSH_COMMAND=ssh -o StrictHostKeyChecking=accept-new"] }

/-- C8 counterexample: with no auth material, the engine never sets
GIT_SSH_COMMAND: every git subprocess of the fetch receives exactly the
ambient environment, ambient GIT_SSH_COMMAND included and unoverridden. -/
theorem git_ssh_env_counterexample :
    gitEnvsOf (Git.fetch ambientSshWorld plainGitOpts "/dst" false).1 =
      List.replicate 6 (some ["PATH=/usr/bin",
        "GIT_SSH_COMMAND=ssh -o StrictHostKeyChecking=accept-new"]) := by
  decide

set_option maxRecDepth 100000 in
theorem git_ssh_env_when_auth_present_witness :
    (gitEnvsOf (Git.fetch sshSecretWorld sshGitOpts "/dst" false).1).getD 0 none =
      some (sshSecretWorld.environ ++
        ["GIT_SSH_COMMAND=" ++ String.intercalate " "
          (sshCmdFor "/tmp/vendir/git-auth" { PrivateKey := some "PRIVATE KEY DATA" })] ++
        (if sshGitOpts.LFSSkipSmudge then ["GIT_LFS_SKIP_SMUDGE=1"] else [])) :=
  git_ssh_env_when_auth_present sshSecretWorld sshGitOpts "/dst" false
    { PrivateKey := some "PRIVATE KEY DATA" } "/tmp/vendir/git-auth"
    (by decide) rfl (by decide) (fun _ => rfl)
    ((gitEnvsOf (Git.fetch sshSecretWorld sshGitOpts "/dst" false).1).getD 0 none)
    (by decide)

theorem gitArgsOf_eq (tr : List Effect) :
    gitArgsOf tr = (gitCmdsOf tr).map Prod.fst := by
  induction tr with
  | nil => rfl
  | cons e rest ih =>
    cases e <;> simp [gitArgsOf, gitCmdsOf] at ih ⊢ <;> exact ih

theorem fetch_ok_cmds (w : World) (t : DirectoryContentsGit) (dst : String)
    (sk : Bool) (h : (Git.fetch w t dst sk).2 = .ok ()) :
    ∀ a ∈ gitArgsOf (Git.fetch w t dst sk).1, (w.gitExec a).exitErr = none := by
  rcases ha : Git.getAuthOpts w t with e | o
  · simp [Git.fetch, ha] at h
  rcases htd : w.newTempDir "git-auth" with e | d
  · simp [Git.fetch, ha, htd] at h
  rcases hA : writeAuthMaterial w o d with ⟨trA, resA⟩
  rcases resA with e | sshE
  · rw [fetch_eq w t dst sk o d ha htd, fetchBody_authErr w t dst sk o d trA e hA] at h
    simp at h
  rcases hC : writeCreds w t o (d ++ "/.git-credentials") with ⟨trC, resC⟩
  rcases resC with e | u
  · rw [fetch_eq w t dst sk o d ha htd,
      fetchBody_credsErr w t dst sk o d trA trC sshE e hA hC] at h
    simp at h
  rcases u
  rw [fetch_eq w t dst sk o d ha htd, fetchBody_eq w t dst sk o d trA trC sshE hA hC] at h ⊢
  intro a hma
  have hA0 : gitCmdsOf trA = [] := by
    have := gitCmdsOf_writeAuthMaterial w o d
    rw [hA] at this; exact this
  have hC0 : gitCmdsOf trC = [] := by
    have := gitCmdsOf_writeCreds w t o (d ++ "/.git-credentials")
    rw [hC] at this; exact this
  rw [gitArgsOf_eq, gitCmdsOf_cons_newTempDir, gitCmdsOf_snoc_removeAll,
    gitCmdsOf_append, gitCmdsOf_append, hA0, hC0, runAll_ok_trace _ _ _ _ h,
    gitCmdsOf_map_runGit] at hma
  simp [List.map_map] at hma
  exact runAll_ok_of_mem _ _ _ _ h a hma

theorem retrieve_ok_shape (w : World) (t : DirectoryContentsGit) (dst : String)
    (info : GitInfo) (h : (Git.Retrieve w t dst).2 = .ok info) :
    (Git.fetch w t dst false).2 = .ok () ∧
    (w.gitExec ["rev-parse", "HEAD"]).exitErr = none ∧
    (w.gitExec ["log", "-n", "1", "--pretty=%B", info.SHA]).exitErr = none ∧
    info.SHA = goTrimSpace (w.gitExec ["rev-parse", "HEAD"]).stdout ∧
    info.CommitTitle =
      goTrimSpace (w.gitExec ["log", "-n", "1", "--pretty=%B", info.SHA]).stdout ∧
    ((w.gitExec ["describe", "--tags", info.SHA]).exitErr ≠ none → info.Tags = []) ∧
    ((w.gitExec ["describe", "--tags", info.SHA]).exitErr = none →
      info.Tags = goSplitNl (goTrimSpace (w.gitExec ["describe", "--tags", info.SHA]).stdout)) ∧
    gitArgsOf (Git.Retrieve w t dst).1 =
      gitArgsOf (Git.fetch w t dst false).1 ++
      [["rev-parse", "HEAD"],
       ["describe", "--tags", info.SHA],
       ["log", "-n", "1", "--pretty=%B", info.SHA]] := by
  by_cases hu : t.URL = ""
  · unfold Git.Retrieve at h
    rw [if_pos hu] at h
    simp at h
  by_cases hr : t.Ref = ""
  · unfold Git.Retrieve at h
    rw [if_neg hu, if_pos hr] at h
    simp at h
  rcases hf : Git.fetch w t dst false with ⟨trF, resF⟩
  rcases resF with e | u
  · unfold Git.Retrieve at h
    rw [if_neg hu, if_neg hr, hf] at h
    simp at h
  rcases u
  unfold Git.Retrieve at h ⊢
  rw [if_neg hu, if_neg hr, hf] at h ⊢
  simp only [Git.run] at h ⊢
  have h1 : (w.gitExec ["rev-parse", "HEAD"]).exitErr = none := by
    rcases hx : (w.gitExec ["rev-parse", "HEAD"]).exitErr with _ | e1
    · rfl
    · rw [hx] at h; simp at h
  rw [h1] at h ⊢
  dsimp only at h ⊢
  have h3 : (w.gitExec ["log", "-n", "1", "--pretty=%B",
      goTrimSpace (w.gitExec ["rev-parse", "HEAD"]).stdout]).exitErr = none := by
    rcases hx : (w.gitExec ["log", "-n", "1", "--pretty=%B",
        goTrimSpace (w.gitExec ["rev-parse", "HEAD"]).stdout]).exitErr with _ | e3
    · rfl
    · rw [hx] at h; simp at h
  rw [h3] at h ⊢
  try dsimp only at h ⊢
  have hinfo : info =
      { SHA := goTrimSpace (w.gitExec ["rev-parse", "HEAD"]).stdout,
        Tags :=
          match (w.gitExec ["describe", "--tags",
              goTrimSpace (w.gitExec ["rev-parse", "HEAD"]).stdout]).exitErr with
          | none => goSplitNl (goTrimSpace (w.gitExec ["describe", "--tags",
              goTrimSpace (w.gitExec ["rev-parse", "HEAD"]).stdout]).stdout)
          | some _ => [],
        CommitTitle := goTrimSpace (w.gitExec ["log", "-n", "1", "--pretty=%B",
          goTrimSpace (w.gitExec ["rev-parse", "HEAD"]).stdout]).stdout } := by
    rcases h2 : (w.gitExec ["describe", "--tags",
        goTrimSpace (w.gitExec ["rev-parse", "HEAD"]).stdout]).exitErr with _ | e2 <;>
      rw [h2] at h <;> simpa using h.symm
  subst hinfo
  refine ⟨?_, ?_, ?_, ?_, ?_, ?_, ?_, ?_⟩
  · first | rfl | trivial
  · rfl
  · first | rfl | exact h3
  · rfl
  · rfl
  · intro h2
    rcases h2x : (w.gitExec ["describe", "--tags",
        goTrimSpace (w.gitExec ["rev-parse", "HEAD"]).stdout]).exitErr with _ | e2
    · exact absurd h2x h2
    · simp [h2x]
  · intro h2
    simp [h2]
  · rcases h2x : (w.gitExec ["describe", "--tags",
        goTrimSpace (w.gitExec ["rev-parse", "HEAD"]).stdout]).exitErr with _ | e2 <;>
      simp [gitArgsOf, h2x]

/-- World in which rev-parse yields abc123, describe --tags fails, the commit
message is multi-paragraph, and every other git command succeeds. -/
def describeFailWorld : World :=
  { baseWorld with
    gitExec := fun args =>
      if args = ["rev-parse", "HEAD"] then { stdout := "abc123\n" }
      else if args = ["describe", "--tags", "abc123"] then
        { exitErr := some "exit status 128", stderr := "fatal: no tags" }
      else if args = ["log", "-n", "1", "--pretty=%B", "abc123"] then
        { stdout := "Add feature\n\nLonger description\n" }
      else {} }

/-- The subject of a commit message, the notion the spec's "log subject"
denotes: its first line. -/
def commitSubject (msg : String) : String := (goSplitNl msg).headD ""

set_option maxRecDepth 100000 in
/-- C2 counterexample: Retrieve stores the whole trimmed commit message
(git log -n 1 --pretty=%B) in CommitTitle; with a multi-paragraph message
that differs from the commit's log subject, so the claim as stated fails. -/
theorem retrieve_commit_title_not_subject :
    (Git.Retrieve describeFailWorld plainGitOpts "/dst").2 =
      .ok { SHA := "abc123", Tags := [],
            CommitTitle := "Add feature\n\nLonger description" } ∧
    commitSubject "Add feature\n\nLonger description\n" = "Add feature" ∧
    ("Add feature\n\nLonger description" : String) ≠ "Add feature" :=
  ⟨by decide, by decide, by decide⟩

/-- C2 amended: for every successful Retrieve, SHA is the whitespace-trimmed
stdout of rev-parse HEAD; CommitTitle is the whitespace-trimmed stdout of
git log -n 1 --pretty=%B at that SHA (the full commit message, not only the
subject); a describe --tags failure is non-fatal and leaves Tags empty (the
witness world's describe fails and Retrieve still succeeds); a describe
success stores its trimmed stdout split on newlines. -/
theorem retrieve_lock_record (w : World) (t : DirectoryContentsGit) (dst : String)
    (info : GitInfo) (h : (Git.Retrieve w t dst).2 = .ok info) :
    info.SHA = goTrimSpace (w.gitExec ["rev-parse", "HEAD"]).stdout ∧
    info.CommitTitle =
      goTrimSpace (w.gitExec ["log", "-n", "1", "--pretty=%B", info.SHA]).stdout ∧
    ((w.gitExec ["describe", "--tags", info.SHA]).exitErr ≠ none → info.Tags = []) ∧
    ((w.gitExec ["describe", "--tags", info.SHA]).exitErr = none →
      info.Tags = goSplitNl (goTrimSpace (w.gitExec ["describe", "--tags", info.SHA]).stdout)) := by
  have hs := retrieve_ok_shape w t dst info h
  exact ⟨hs.2.2.2.1, hs.2.2.2.2.1, hs.2.2.2.2.2.1, hs.2.2.2.2.2.2.1⟩

set_option maxRecDepth 100000 in
theorem retrieve_lock_record_witness :
    ("abc123" : String) = goTrimSpace (describeFailWorld.gitExec ["rev-parse", "HEAD"]).stdout ∧
    ("Add feature\n\nLonger description" : String) =
      goTrimSpace (describeFailWorld.gitExec ["log", "-n", "1", "--pretty=%B", "abc123"]).stdout ∧
    ((describeFailWorld.gitExec ["describe", "--tags", "abc123"]).exitErr ≠ none →
      ([] : List String) = []) ∧
    ((describeFailWorld.gitExec ["describe", "--tags", "abc123"]).exitErr = none →
      ([] : List String) =
        goSplitNl (goTrimSpace (describeFailWorld.gitExec ["describe", "--tags", "abc123"]).stdout)) :=
  retrieve_lock_record describeFailWorld plainGitOpts "/dst"
    { SHA := "abc123", Tags := [], CommitTitle := "Add feature\n\nLonger description" }
    (by decide)

set_option maxRecDepth 100000 in
/-- C5 counterexample: the describe --tags subprocess exits non-zero and run
turns that into an error, yet Retrieve succeeds: that one failure is not
propagated, refuting the claim's universal propagation. -/
theorem describe_failure_not_propagated :
    (describeFailWorld.gitExec ["describe", "--tags", "abc123"]).exitErr =
      some "exit status 128" ∧
    (Git.run describeFailWorld ["describe", "--tags", "abc123"] none "/dst").2 =
      .error "Git [describe --tags abc123]: exit status 128 (stderr: fatal: no tags)" ∧
    (Git.Retrieve describeFailWorld plainGitOpts "/dst").2 =
      .ok { SHA := "abc123", Tags := [],
            CommitTitle := "Add feature\n\nLonger description" } :=
  ⟨rfl, by decide, by decide⟩

/-- C5 amended: a non-zero git subprocess makes run return an error whose
message contains the argument vector (Go's [a b c] rendering) and the
captured stderr; and a successful Retrieve implies that every git invocation
in its trace other than the describe --tags one exited zero — the describe
failure alone is swallowed (tags left empty) instead of propagated. -/
theorem run_error_content_and_propagation (w : World) (t : DirectoryContentsGit)
    (dst : String) :
    (∀ args env e, (w.gitExec args).exitErr = some e →
      ∃ msg, (Git.run w args env dst).2 = .error msg ∧
        (∃ u v, msg = u ++ goFmtArgs args ++ v) ∧
        (∃ u v, msg = u ++ (w.gitExec args).stderr ++ v)) ∧
    (∀ info, (Git.Retrieve w t dst).2 = .ok info →
      ∀ a ∈ gitArgsOf (Git.Retrieve w t dst).1,
        a ≠ ["describe", "--tags", info.SHA] → (w.gitExec a).exitErr = none) := by
  constructor
  · intro args env e hx
    refine ⟨"Git " ++ goFmtArgs args ++ ": " ++ e ++ " (stderr: " ++
      (w.gitExec args).stderr ++ ")", ?_, ?_, ?_⟩
    · simp [Git.run, hx]
    · exact ⟨"Git ", ": " ++ e ++ " (stderr: " ++ (w.gitExec args).stderr ++ ")",
        by simp [String.append_assoc]⟩
    · exact ⟨"Git " ++ goFmtArgs args ++ ": " ++ e ++ " (stderr: ", ")", rfl⟩
  · intro info h a hma hne
    have hs := retrieve_ok_shape w t dst info h
    rw [hs.2.2.2.2.2.2.2] at hma
    rcases List.mem_append.mp hma with hmf | hmr
    · exact fetch_ok_cmds w t dst false hs.1 a hmf
    · rcases (by simpa using hmr :
          a = ["rev-parse", "HEAD"] ∨ a = ["describe", "--tags", info.SHA] ∨
          a = ["log", "-n", "1", "--pretty=%B", info.SHA]) with rfl | rfl | rfl
      · exact hs.2.1
      · exact absurd rfl hne
      · exact hs.2.2.1

set_option maxRecDepth 100000 in
theorem run_error_content_and_propagation_witness :
    (∃ msg, (Git.run describeFailWorld ["describe", "--tags", "abc123"] none "/dst").2 =
        .error msg ∧
      (∃ u v, msg = u ++ goFmtArgs ["describe", "--tags", "abc123"] ++ v) ∧
      (∃ u v, msg = u ++ (describeFailWorld.gitExec ["describe", "--tags", "abc123"]).stderr ++ v)) ∧
    (describeFailWorld.gitExec ["rev-parse", "HEAD"]).exitErr = none :=
  ⟨(run_error_content_and_propagation describeFailWorld plainGitOpts "/dst").1
      ["describe", "--tags", "abc123"] none "exit status 128" (by decide),
   (run_error_content_and_propagation describeFailWorld plainGitOpts "/dst").2
      { SHA := "abc123", Tags := [], CommitTitle := "Add feature\n\nLonger description" }
      (by decide) ["rev-parse", "HEAD"] (by decide) (by decide)⟩

/-- Modelled from the spec: the synchronization engine (ConfigSync and
DirectorySync of spec sections 4.5, 4.6 and 8) is not under src/, which holds
only the git fetcher and an e2e test; a configured content is a sub-path
under its directory. -/
structure ContentCfg where
  path : String
deriving Repr, DecidableEq

/-- Modelled from the spec: one configured directory with ordered contents. -/
structure DirCfg where
  path : String
  contents : List ContentCfg
deriving Repr, DecidableEq

/-- Modelled from the spec: the configuration's ordered directories. -/
structure Config where
  directories : List DirCfg
deriving Repr, DecidableEq

/-- Modelled from the spec: a lock entry pinning one content's
non-deterministic input (git SHA, image digest, archive checksum). -/
structure LockedContent where
  path : String
  pin : String
deriving Repr, DecidableEq

/-- Modelled from the spec: the lock's structural mirror of one directory. -/
structure LockedDir where
  path : String
  contents : List LockedContent
deriving Repr, DecidableEq

/-- Modelled from the spec: the lock file. -/
structure LockFile where
  directories : List LockedDir
deriving Repr, DecidableEq

/-- A materialized tree: relative file paths with byte contents. -/
abbrev Tree := List (String × String)

/-- Modelled from the spec: in locked mode every source is replayed from its
pinned identifier alone (fetchers are idempotent under identical inputs and
lock material), so the offline store is a function of the pin. -/
structure Store where
  fetchPinned : String → Option Tree

/-- Modelled from the spec: replay one content from its lock entry, root its
tree at the content's sub-path, and re-emit the lock entry. -/
def syncContentLocked (store : Store) (c : ContentCfg) (lc : LockedContent) :
    Except String (Tree × LockedContent) :=
  if c.path = lc.path then
    match store.fetchPinned lc.pin with
    | none => .error ("Pinned content not replayable offline: " ++ lc.pin)
    | some tree =>
      .ok (tree.map (fun f => (c.path ++ "/" ++ f.1, f.2)),
        { path := c.path, pin := lc.pin })
  else .error ("Lock does not match config at content path " ++ c.path)

/-- Modelled from the spec: contents are processed in declared order and lock
entries correspond one-to-one with configured contents. -/
def syncContentsLocked (store : Store) :
    List ContentCfg → List LockedContent → Except String (Tree × List LockedContent)
  | [], [] => .ok ([], [])
  | c :: cs, lc :: lcs =>
    match syncContentLocked store c lc with
    | .error e => .error e
    | .ok (tr, l) =>
      match syncContentsLocked store cs lcs with
      | .error e => .error e
      | .ok (trs, ls) => .ok (tr ++ trs, l :: ls)
  | _, _ => .error "Lock entries do not correspond one-to-one with configured contents"

/-- Modelled from the spec: one directory is assembled from its contents'
trees at their disjoint sub-paths and its lock mirror is rewritten. -/
def syncDirLocked (store : Store) (d : DirCfg) (ld : LockedDir) :
    Except String ((String × Tree) × LockedDir) :=
  if d.path = ld.path then
    match syncContentsLocked store d.contents ld.contents with
    | .error e => .error e
    | .ok (tr, ls) => .ok ((d.path, tr), { path := d.path, contents := ls })
  else .error ("Lock does not match config at directory path " ++ d.path)

/-- Modelled from the spec: directories are processed in configured order. -/
def syncDirsLocked (store : Store) :
    List DirCfg → List LockedDir → Except String (List (String × Tree) × List LockedDir)
  | [], [] => .ok ([], [])
  | d :: ds, ld :: lds =>
    match syncDirLocked store d ld with
    | .error e => .error e
    | .ok (out, l) =>
      match syncDirsLocked store ds lds with
      | .error e => .error e
      | .ok (outs, ls) => .ok (out :: outs, l :: ls)
  | _, _ => .error "Lock directories do not correspond one-to-one with configured directories"

/-- Modelled from the spec: sync --locked consumes config plus lock, replays
every content from its pinned identifier only, assembles the target trees and
rewrites the lock on success. -/
def syncLocked (store : Store) (cfg : Config) (lock : LockFile) :
    Except String (List (String × Tree) × LockFile) :=
  match syncDirsLocked store cfg.directories lock.directories with
  | .error e => .error e
  | .ok (outs, ls) => .ok (outs, { directories := ls })

theorem syncContentLocked_stable (store : Store) (c : ContentCfg) (lc : LockedContent)
    (tr : Tree) (l : LockedContent)
    (h : syncContentLocked store c lc = .ok (tr, l)) :
    syncContentLocked store c l = .ok (tr, l) := by
  unfold syncContentLocked at h ⊢
  by_cases hp : c.path = lc.path
  · rw [if_pos hp] at h
    rcases hs : store.fetchPinned lc.pin with _ | tree
    · rw [hs] at h; simp at h
    · rw [hs] at h
      simp only [Except.ok.injEq, Prod.mk.injEq] at h
      rcases h with ⟨htr, hl⟩
      subst hl
      rw [if_pos rfl]
      dsimp only
      simp only [hs, htr]
  · rw [if_neg hp] at h; simp at h

theorem syncContentsLocked_stable (store : Store) : ∀ (cs : List ContentCfg)
    (lcs : List LockedContent) (tr : Tree) (ls : List LockedContent),
    syncContentsLocked store cs lcs = .ok (tr, ls) →
    syncContentsLocked store cs ls = .ok (tr, ls) := by
  intro cs
  induction cs with
  | nil =>
    intro lcs tr ls h
    cases lcs with
    | nil =>
      simp only [syncContentsLocked, Except.ok.injEq, Prod.mk.injEq] at h
      rcases h with ⟨htr, hls⟩
      subst htr; subst hls
      rfl
    | cons lc lcs => simp [syncContentsLocked] at h
  | cons c cs ih =>
    intro lcs tr ls h
    cases lcs with
    | nil => simp [syncContentsLocked] at h
    | cons lc lcs =>
      simp only [syncContentsLocked] at h
      rcases hc : syncContentLocked store c lc with e | ⟨tr1, l1⟩
      · rw [hc] at h; simp at h
      rw [hc] at h
      rcases hrest : syncContentsLocked store cs lcs with e | ⟨trs, ls1⟩
      · rw [hrest] at h; simp at h
      rw [hrest] at h
      simp only [Except.ok.injEq, Prod.mk.injEq] at h
      rcases h with ⟨htr, hls⟩
      subst htr; subst hls
      simp only [syncContentsLocked, syncContentLocked_stable store c lc tr1 l1 hc,
        ih lcs trs ls1 hrest]

theorem syncDirLocked_stable (store : Store) (d : DirCfg) (ld : LockedDir)
    (out : String × Tree) (l : LockedDir)
    (h : syncDirLocked store d ld = .ok (out, l)) :
    syncDirLocked store d l = .ok (out, l) := by
  unfold syncDirLocked at h ⊢
  by_cases hp : d.path = ld.path
  · rw [if_pos hp] at h
    rcases hs : syncContentsLocked store d.contents ld.contents with e | ⟨tr, ls⟩
    · rw [hs] at h; simp at h
    · rw [hs] at h
      simp only [Except.ok.injEq, Prod.mk.injEq] at h
      rcases h with ⟨hout, hl⟩
      subst hl
      rw [if_pos rfl]
      dsimp only
      simp only [syncContentsLocked_stable store d.contents ld.contents tr ls hs, hout]
  · rw [if_neg hp] at h; simp at h

theorem syncDirsLocked_stable (store : Store) : ∀ (ds : List DirCfg)
    (lds : List LockedDir) (outs : List (String × Tree)) (ls : List LockedDir),
    syncDirsLocked store ds lds = .ok (outs, ls) →
    syncDirsLocked store ds ls = .ok (outs, ls) := by
  intro ds
  induction ds with
  | nil =>
    intro lds outs ls h
    cases lds with
    | nil =>
      simp only [syncDirsLocked, Except.ok.injEq, Prod.mk.injEq] at h
      rcases h with ⟨houts, hls⟩
      subst houts; subst hls
      rfl
    | cons ld lds => simp [syncDirsLocked] at h
  | cons d ds ih =>
    intro lds outs ls h
    cases lds with
    | nil => simp [syncDirsLocked] at h
    | cons ld lds =>
      simp only [syncDirsLocked] at h
      rcases hc : syncDirLocked store d ld with e | ⟨out1, l1⟩
      · rw [hc] at h; simp at h
      rw [hc] at h
      rcases hrest : syncDirsLocked store ds lds with e | ⟨outs1, ls1⟩
      · rw [hrest] at h; simp at h
      rw [hrest] at h
      simp only [Except.ok.injEq, Prod.mk.injEq] at h
      rcases h with ⟨houts, hls⟩
      subst houts; subst hls
      simp only [syncDirsLocked, syncDirLocked_stable store d ld out1 l1 hc,
        ih lds outs1 ls1 hrest]

/-- C1 (modelled from the spec): sync --locked is deterministic over a
config + lock pair: a second run consuming the lock produced by the first
yields exactly the first run's target trees and the identical lock file. -/
theorem sync_locked_deterministic (store : Store) (cfg : Config) (lock : LockFile)
    (target : List (String × Tree)) (lock1 : LockFile)
    (h : syncLocked store cfg lock = .ok (target, lock1)) :
    syncLocked store cfg lock1 = .ok (target, lock1) := by
  unfold syncLocked at h ⊢
  rcases hd : syncDirsLocked store cfg.directories lock.directories with e | ⟨outs, ls⟩
  · rw [hd] at h; simp at h
  rw [hd] at h
  simp only [Except.ok.injEq, Prod.mk.injEq] at h
  rcases h with ⟨houts, hlock⟩
  subst hlock
  dsimp only
  simp only [syncDirsLocked_stable store cfg.directories lock.directories outs ls hd, houts]

/-- A store holding two pinned trees for the witness scenario. -/
def demoStore : Store where
  fetchPinned := fun pin =>
    if pin = "sha-abc" then some [("a.txt", "alpha")]
    else if pin = "sha-def" then some [("b/b.txt", "beta")]
    else none

/-- One directory with two contents at disjoint sub-paths. -/
def demoConfig : Config := ⟨[⟨"vendor/lib", [⟨"x"⟩, ⟨"y"⟩]⟩]⟩

/-- The matching lock pinning each content. -/
def demoLock : LockFile := ⟨[⟨"vendor/lib", [⟨"x", "sha-abc"⟩, ⟨"y", "sha-def"⟩]⟩]⟩

theorem sync_locked_deterministic_witness :
    syncLocked demoStore demoConfig demoLock =
      .ok ([("vendor/lib",
        [("x" ++ "/" ++ "a.txt", "alpha"), ("y" ++ "/" ++ "b/b.txt", "beta")])],
        demoLock) :=
  sync_locked_deterministic demoStore demoConfig demoLock
    [("vendor/lib",
      [("x" ++ "/" ++ "a.txt", "alpha"), ("y" ++ "/" ++ "b/b.txt", "beta")])]
    demoLock (by decide)

end Vendir
